import Mathlib

/-!
Shallow embedding of the S3-FIFO cache engine from `src/s3fifo_rocksdb.hpp`
(class `S3FIFORocksDB`).

Each of the three queues (small, main, ghost) is a RocksDB instance; the
engine consumes only the generic ordered-KV contract of spec section 4.1
(point lookup, insert-or-overwrite that preserves FIFO position, delete by
key, oldest-first iteration).  The backend is an external collaborator, so
it is modelled here as an association list in FIFO order, with the
operations the engine actually issues.

Machine integers (the `std::atomic<uint64_t>` counters) are modelled as
unbounded `Nat`; every decrement in the source is guarded so that it only
happens at a positive counter on the paths exercised here, and wraparound
after 2^64 operations is out of the modelled range.  The `rand()` draw of
the promotion probability and the success of the backend insert during a
promotion are passed in as explicit `Bool` parameters of `get`.
-/

namespace S3FIFO

/-- Entry list of one RocksDB queue, in FIFO (insertion) order. -/
abbrev KVList := List (String × String)

/-- Point lookup (`db->Get`): the value stored for `k`, if present. -/
def kvGet (k : String) : KVList → Option String
  | [] => none
  | (k1, v1) :: t => if k1 = k then some v1 else kvGet k t

/-- Insert-or-overwrite (`db->Put`).  Per the backend contract of spec
section 4.1, overwriting a key keeps its FIFO position; a fresh key is
appended at the tail. -/
def kvPut (k v : String) : KVList → KVList
  | [] => [(k, v)]
  | (k1, v1) :: t => if k1 = k then (k1, v) :: t else (k1, v1) :: kvPut k v t

/-- Delete by key (`db->Delete`). -/
def kvDelete (k : String) : KVList → KVList
  | [] => []
  | (k1, v1) :: t => if k1 = k then kvDelete k t else (k1, v1) :: kvDelete k t

/-- Per-key record of `access_tracker_` (struct `AccessInfo`). -/
structure AccessInfo where
  count : Nat
  lastAccess : Nat
  deriving DecidableEq

/-- The mutable state of a `S3FIFORocksDB` instance: the three queue
backends, the three item counters, the logical clock `access_count_`,
the map `access_counts_` (total with default 0, as `operator[]` yields),
and the map `access_tracker_`. -/
structure CacheState where
  small : KVList
  main : KVList
  ghost : KVList
  smallCount : Nat
  mainCount : Nat
  ghostCount : Nat
  clock : Nat
  counts : String → Nat
  tracker : String → Option AccessInfo

/-- Derived queue budgets of the instance (`small_size_`, `main_size_`,
`ghost_size_`). -/
structure S3Config where
  smallSize : Nat
  mainSize : Nat
  ghostSize : Nat
  deriving DecidableEq

/-- Constant of `getAverageValueSize` (4096 bytes). -/
def getAverageValueSize : Nat := 4096

/-- Constant `MIN_ACCESS_COUNT` (= 2). -/
def MIN_ACCESS_COUNT : Nat := 2

/-- Result of the public `get`: `found v` for `Status::OK` with the fetched
value, `notFound` for `Status::NotFound`. -/
inductive GetOutcome where
  | found (v : String)
  | notFound
  deriving DecidableEq

/-- Method `quickDemotion` (lines 355-377): if the key has an entry in
`access_tracker_`, bump the logical clock, and when the entry is old
(`age > 10000`) or cold (`count < MIN_ACCESS_COUNT`) move the key from the
small queue to the main queue, adjusting both item counters.  Keys without
a tracker entry are left untouched. -/
def quickDemotion (st : CacheState) (k : String) : CacheState :=
  match st.tracker k with
  | none => st
  | some info =>
    let clock1 := st.clock + 1
    let age := clock1 - info.lastAccess
    let st1 := { st with clock := clock1 }
    if age > 10000 ∨ info.count < MIN_ACCESS_COUNT then
      match kvGet k st1.small with
      | some v =>
        { st1 with
          main := kvPut k v st1.main
          small := kvDelete k st1.small
          smallCount := st1.smallCount - 1
          mainCount := st1.mainCount + 1 }
      | none => st1
    else st1

/-- Method `shouldPromoteToSmall` (lines 288-305): a ghost hit promotes
unconditionally; otherwise promotion needs `access_counts_[key] > 1` and a
favourable random draw (`rand()/RAND_MAX < 0.01`, passed in as `draw`). -/
def shouldPromoteToSmall (st : CacheState) (k : String) (draw : Bool) : Bool :=
  if (kvGet k st.ghost).isSome then true
  else if st.counts k > 1 then draw else false

/-- Public method `get` (lines 539-564).  A small-queue hit returns the
small queue's value after considering quick demotion.  A main-queue hit
returns the main queue's value, first promoting the key to the small queue
when `shouldPromoteToSmall` says so; the status of the small-queue insert
is not inspected (`smallPutOk` injects its success), and the key is deleted
from the main queue and the counters are updated regardless.  Anything else
is a miss that mutates nothing. -/
def get (st : CacheState) (k : String) (draw : Bool) (smallPutOk : Bool) :
    CacheState × GetOutcome :=
  match kvGet k st.small with
  | some v => (quickDemotion st k, GetOutcome.found v)
  | none =>
    match kvGet k st.main with
    | some v =>
      if shouldPromoteToSmall st k draw then
        ({ st with
            small := if smallPutOk then kvPut k v st.small else st.small
            main := kvDelete k st.main
            smallCount := st.smallCount + 1
            mainCount := st.mainCount - 1 }, GetOutcome.found v)
      else (st, GetOutcome.found v)
    | none => (st, GetOutcome.notFound)

/-- Empty value written for ghost entries. -/
def emptyVal : String := ""

/-- Method `evictFromMain` (lines 314-330): one eviction step.  Take the
FIFO-oldest main entry; if its key is not in the small queue, insert it
into the ghost queue (empty value) and bump the ghost counter; then delete
it from the main queue and decrement the main counter.  Nothing ever
removes ghost entries on this path. -/
def evictFromMain (st : CacheState) : CacheState :=
  match st.main with
  | [] => st
  | (kold, _) :: _ =>
    let st1 :=
      if (kvGet kold st.small).isSome then st
      else { st with ghost := kvPut kold emptyVal st.ghost, ghostCount := st.ghostCount + 1 }
    { st1 with main := kvDelete kold st1.main, mainCount := st1.mainCount - 1 }

/-- Insertion phase of `put` (lines 520-529): write to the main queue,
increment the main counter, and overwrite the small queue's copy when the
key is resident there. -/
def putInsert (st : CacheState) (k v : String) : CacheState :=
  let st1 := { st with main := kvPut k v st.main, mainCount := st.mainCount + 1 }
  if (kvGet k st1.small).isSome then { st1 with small := kvPut k v st1.small } else st1

/-- Public method `put` (lines 520-537): the insertion phase, followed by a
single `evictFromMain` step when the main counter times the average value
size exceeds the main budget. -/
def put (cfg : S3Config) (st : CacheState) (k v : String) : CacheState :=
  let st2 := putInsert st k v
  if st2.mainCount * getAverageValueSize > cfg.mainSize then evictFromMain st2 else st2

/-- State of a freshly constructed cache: empty queues, zero counters,
empty access maps. -/
def initState : CacheState :=
  { small := []
    main := []
    ghost := []
    smallCount := 0
    mainCount := 0
    ghostCount := 0
    clock := 0
    counts := fun _ => 0
    tracker := fun _ => none }

/-- Derived sizes computed by the constructor (lines 469-474):
`small_size_ = total * small_ratio`, `main_size_ = total * (1 - small_ratio)`,
`ghost_size_ = total * ghost_ratio`, each truncated to an integer. -/
def mkSizes (total : Nat) (smallFrac ghostFrac : ℚ) : S3Config :=
  { smallSize := (⌊(total : ℚ) * smallFrac⌋).toNat
    mainSize := (⌊(total : ℚ) * (1 - smallFrac)⌋).toNat
    ghostSize := (⌊(total : ℚ) * ghostFrac⌋).toNat }

/-- Constructor `S3FIFORocksDB::S3FIFORocksDB` (lines 465-518): derives the
sub-budgets from the ratios and opens the three backend stores, throwing
when an open fails.  The three `Bool` parameters inject whether each
`rocksdb::DB::Open` succeeds; `none` models the constructor throwing.  The
source performs no validation of the ratios. -/
def mkCache (total : Nat) (smallFrac ghostFrac : ℚ)
    (smallOpenOk mainOpenOk ghostOpenOk : Bool) : Option (S3Config × CacheState) :=
  if smallOpenOk && mainOpenOk && ghostOpenOk then
    some (mkSizes total smallFrac ghostFrac, initState)
  else none

/-- One public operation: a `put` with its key and value, or a `get` with
its key, the random promotion draw it would observe, and whether the
small-queue insert of a promotion would succeed. -/
inductive Op where
  | putOp (k v : String)
  | getOp (k : String) (draw : Bool) (smallPutOk : Bool)
  deriving DecidableEq

/-- Effect of one public operation on the cache state. -/
def stepOp (cfg : S3Config) (st : CacheState) : Op → CacheState
  | Op.putOp k v => put cfg st k v
  | Op.getOp k d p => (get st k d p).1

/-- State after running a sequence of public operations from a fresh
instance. -/
def runOps (cfg : S3Config) (ops : List Op) : CacheState :=
  ops.foldl (stepOp cfg) initState

/-- Struct `Statistics` (lines 580-594). -/
structure Statistics where
  small_items : Nat
  main_items : Nat
  ghost_items : Nat
  small_size : Nat
  main_size : Nat
  ghost_size : Nat
  deriving DecidableEq

/-- Member `Statistics::hit_ratio` (lines 589-593): the quotient
`small_items / (small_items + main_items)` when the denominator is
positive, else 0, as an exact rational. -/
def Statistics.hitFraction (s : Statistics) : ℚ :=
  let total := s.small_items + s.main_items
  if total > 0 then (s.small_items : ℚ) / (total : ℚ) else 0

/-- Method `getStats` (lines 596-607): copies the three item counters and
reads the three live-file sizes from the backend (injected here as the
three `Nat` arguments, since they come from RocksDB properties). -/
def getStats (st : CacheState) (smallBytes mainBytes ghostBytes : Nat) : Statistics :=
  { small_items := st.smallCount
    main_items := st.mainCount
    ghost_items := st.ghostCount
    small_size := smallBytes
    main_size := mainBytes
    ghost_size := ghostBytes }

/-- Key `k` is present in both the small and the main queue. -/
def inBoth (st : CacheState) (k : String) : Prop :=
  (kvGet k st.small).isSome ∧ (kvGet k st.main).isSome

/-- The operation is a `put` on key `k`. -/
def opPutsKey (op : Op) (k : String) : Prop :=
  match op with
  | Op.putOp k0 _ => k0 = k
  | Op.getOp _ _ _ => False

/-- Invariant carried through every public operation: the access tracker
is empty on every live path, the main item counter dominates the true main
queue length, and the main queue is within its byte budget in the
item-count-times-average-value-size measure. -/
def CacheInv (cfg : S3Config) (st : CacheState) : Prop :=
  (∀ k, st.tracker k = none) ∧
  st.main.length ≤ st.mainCount ∧
  st.main.length * getAverageValueSize ≤ cfg.mainSize

/-- Configuration used by the concrete runs below: budgets of one
4096-byte item for each queue (as derived from total 8192 with ratios
1/2 and 1/2). -/
def cfg0 : S3Config := { smallSize := 4096, mainSize := 4096, ghostSize := 4096 }

def keyA : String := "a"
def keyB : String := "b"
def valA : String := "va"
def valB : String := "vb"
def valW : String := "w"

/-- Run driving key `a` through main into ghost and back into main:
after it, `a` is in the main queue and in the ghost queue. -/
def opsGhostHit : List Op :=
  [Op.putOp keyA valA, Op.putOp keyB valB, Op.putOp keyA valA]

/-- `opsGhostHit` followed by the `get` of `a` that takes the ghost-hit
promotion: after it, `a` is in the small queue. -/
def opsPromoted : List Op :=
  opsGhostHit ++ [Op.getOp keyA false true]

/-- Run promoting both `a` and `b` into the small queue through ghost
hits: the small queue ends with two items against a one-item budget. -/
def opsTwoPromotions : List Op :=
  opsPromoted ++ [Op.putOp keyB valB, Op.getOp keyB false true]

/-- `opsPromoted` followed by a `put` of `a` while `a` is resident in the
small queue: `a` ends in both the small and the main queue. -/
def opsOverlap : List Op :=
  opsPromoted ++ [Op.putOp keyA valW]

/-- State after a single `put` of key `a`, used by the access-count run. -/
def stPutA : CacheState := runOps cfg0 [Op.putOp keyA valA]

/-- First `get` of key `a` after `stPutA` (a main-queue hit). -/
def getA1 : CacheState × GetOutcome := get stPutA keyA false true

/-- Second `get` of key `a` (again a main-queue hit). -/
def getA2 : CacheState × GetOutcome := get getA1.1 keyA false true

/-! Lemmas about the ordered-KV backend operations. -/

theorem kvGet_kvPut (k k0 v : String) (l : KVList) :
    kvGet k (kvPut k0 v l) = if k0 = k then some v else kvGet k l := by
  induction l with
  | nil => simp [kvPut, kvGet]
  | cons p t ih =>
    obtain ⟨k1, v1⟩ := p
    by_cases h1 : k1 = k0
    · subst h1
      by_cases h2 : k1 = k
      · subst h2; simp [kvPut, kvGet]
      · simp [kvPut, kvGet, h2]
    · by_cases h2 : k1 = k
      · subst h2
        have h3 : ¬k0 = k1 := fun h => h1 h.symm
        simp [kvPut, kvGet, h1, h3]
      · simp [kvPut, kvGet, h1, h2, ih]

theorem kvGet_kvDelete (k k0 : String) (l : KVList) :
    kvGet k (kvDelete k0 l) = if k0 = k then none else kvGet k l := by
  induction l with
  | nil => simp [kvDelete, kvGet]
  | cons p t ih =>
    obtain ⟨k1, v1⟩ := p
    by_cases h1 : k1 = k0
    · subst h1
      by_cases h2 : k1 = k
      · subst h2; simp [kvDelete, kvGet, ih]
      · simp [kvDelete, kvGet, h2, ih]
    · by_cases h2 : k1 = k
      · subst h2
        have h3 : ¬k0 = k1 := fun h => h1 h.symm
        simp [kvDelete, kvGet, h1, h3]
      · simp [kvDelete, kvGet, h1, h2, ih]

theorem kvPut_length_le (k v : String) (l : KVList) :
    (kvPut k v l).length ≤ l.length + 1 := by
  induction l with
  | nil => simp [kvPut]
  | cons p t ih =>
    obtain ⟨k1, v1⟩ := p
    by_cases h1 : k1 = k
    · simp [kvPut, h1]
    · simp only [kvPut, if_neg h1, List.length_cons]
      omega

theorem kvDelete_length_le (k : String) (l : KVList) :
    (kvDelete k l).length ≤ l.length := by
  induction l with
  | nil => simp [kvDelete]
  | cons p t ih =>
    obtain ⟨k1, v1⟩ := p
    by_cases h1 : k1 = k <;> simp [kvDelete, h1] <;> omega

theorem kvDelete_cons_self (k v : String) (t : KVList) :
    kvDelete k ((k, v) :: t) = kvDelete k t := by
  simp [kvDelete]

theorem kvDelete_length_lt (k : String) (l : KVList)
    (h : (kvGet k l).isSome) : (kvDelete k l).length + 1 ≤ l.length := by
  induction l with
  | nil => simp [kvGet] at h
  | cons p t ih =>
    obtain ⟨k1, v1⟩ := p
    by_cases h1 : k1 = k
    · subst h1
      have := kvDelete_length_le k1 t
      simp [kvDelete]
      omega
    · simp [kvGet, h1] at h
      simp [kvDelete, h1]
      exact ih h

theorem kvGet_isSome_kvPut (k k0 v : String) (l : KVList) :
    (kvGet k (kvPut k0 v l)).isSome ↔ k0 = k ∨ (kvGet k l).isSome := by
  rw [kvGet_kvPut]
  by_cases h : k0 = k <;> simp [h]

theorem kvGet_isSome_kvDelete (k k0 : String) (l : KVList) :
    (kvGet k (kvDelete k0 l)).isSome ↔ ¬k0 = k ∧ (kvGet k l).isSome := by
  rw [kvGet_kvDelete]
  by_cases h : k0 = k <;> simp [h]

theorem kvPut_ne_nil (k v : String) (l : KVList) : kvPut k v l ≠ [] := by
  cases l with
  | nil => simp [kvPut]
  | cons p t =>
    obtain ⟨k1, v1⟩ := p
    by_cases h : k1 = k <;> simp [kvPut, h]

/-! Structural lemmas about the engine's operations. -/

theorem putInsert_main (st : CacheState) (k v : String) :
    (putInsert st k v).main = kvPut k v st.main := by
  obtain ⟨sm, mn, gh, sc, mc, gc, ck, co, tr⟩ := st
  by_cases hs : (kvGet k sm).isSome <;> simp [putInsert, hs]

theorem putInsert_mainCount (st : CacheState) (k v : String) :
    (putInsert st k v).mainCount = st.mainCount + 1 := by
  obtain ⟨sm, mn, gh, sc, mc, gc, ck, co, tr⟩ := st
  by_cases hs : (kvGet k sm).isSome <;> simp [putInsert, hs]

theorem putInsert_small (st : CacheState) (k v : String) :
    (putInsert st k v).small =
      if (kvGet k st.small).isSome then kvPut k v st.small else st.small := by
  obtain ⟨sm, mn, gh, sc, mc, gc, ck, co, tr⟩ := st
  by_cases hs : (kvGet k sm).isSome <;> simp [putInsert, hs]

theorem putInsert_tracker (st : CacheState) (k v : String) :
    (putInsert st k v).tracker = st.tracker := by
  obtain ⟨sm, mn, gh, sc, mc, gc, ck, co, tr⟩ := st
  by_cases hs : (kvGet k sm).isSome <;> simp [putInsert, hs]

theorem evictFromMain_small (st : CacheState) :
    (evictFromMain st).small = st.small := by
  unfold evictFromMain
  split
  · rfl
  · split <;> rfl

theorem evictFromMain_tracker (st : CacheState) :
    (evictFromMain st).tracker = st.tracker := by
  unfold evictFromMain
  split
  · rfl
  · split <;> rfl

theorem evictFromMain_cons (st : CacheState) (k0 v0 : String) (t : KVList)
    (h : st.main = (k0, v0) :: t) :
    (evictFromMain st).main = kvDelete k0 st.main ∧
    (evictFromMain st).mainCount = st.mainCount - 1 ∧
    ((kvGet k0 st.small).isSome → (evictFromMain st).ghost = st.ghost) ∧
    (kvGet k0 st.small = none →
      (evictFromMain st).ghost = kvPut k0 emptyVal st.ghost) := by
  obtain ⟨sm, mn, gh, sc, mc, gc, ck, co, tr⟩ := st
  simp only at h
  subst h
  by_cases hs : (kvGet k0 sm).isSome
  · refine ⟨?_, ?_, fun _ => ?_, fun hn => by rw [hn] at hs; simp at hs⟩ <;>
      simp [evictFromMain, hs]
  · refine ⟨?_, ?_, fun hy => absurd hy hs, fun _ => ?_⟩ <;>
      simp [evictFromMain, hs]

theorem put_small (cfg : S3Config) (st : CacheState) (k v : String) :
    (put cfg st k v).small = (putInsert st k v).small := by
  by_cases ht : (putInsert st k v).mainCount * getAverageValueSize > cfg.mainSize
  · simp [put, ht, evictFromMain_small]
  · simp [put, ht]

theorem put_tracker (cfg : S3Config) (st : CacheState) (k v : String) :
    (put cfg st k v).tracker = st.tracker := by
  by_cases ht : (putInsert st k v).mainCount * getAverageValueSize > cfg.mainSize
  · simp [put, ht, evictFromMain_tracker, putInsert_tracker]
  · simp [put, ht, putInsert_tracker]

theorem quickDemotion_of_tracker_none (st : CacheState) (k : String)
    (h : st.tracker k = none) : quickDemotion st k = st := by
  unfold quickDemotion
  rw [h]

theorem quickDemotion_tracker (st : CacheState) (k : String) :
    (quickDemotion st k).tracker = st.tracker := by
  obtain ⟨sm, mn, gh, sc, mc, gc, ck, co, tr⟩ := st
  simp only [quickDemotion]
  split
  · rfl
  · rename_i info _
    by_cases hc : ck + 1 - info.lastAccess > 10000 ∨ info.count < MIN_ACCESS_COUNT
    · cases hS : kvGet k sm <;> simp [hc, hS]
    · simp [hc]

theorem quickDemotion_cases (st : CacheState) (k0 : String) :
    ((quickDemotion st k0).small = st.small ∧ (quickDemotion st k0).main = st.main) ∨
    ∃ v, (quickDemotion st k0).small = kvDelete k0 st.small ∧
      (quickDemotion st k0).main = kvPut k0 v st.main := by
  obtain ⟨sm, mn, gh, sc, mc, gc, ck, co, tr⟩ := st
  simp only [quickDemotion]
  split
  · left; exact ⟨rfl, rfl⟩
  · rename_i info _
    by_cases hc : ck + 1 - info.lastAccess > 10000 ∨ info.count < MIN_ACCESS_COUNT
    · cases hS : kvGet k0 sm with
      | none => left; constructor <;> simp [hc, hS]
      | some v => right; exact ⟨v, by simp [hc, hS], by simp [hc, hS]⟩
    · left; constructor <;> simp [hc]

theorem get_notFound_state (st : CacheState) (k : String) (d p : Bool)
    (h : (get st k d p).2 = GetOutcome.notFound) : (get st k d p).1 = st := by
  revert h
  unfold get
  split
  · intro h; simp at h
  · split
    · intro h; split at h <;> simp at h
    · intro _; rfl

theorem get_tracker (st : CacheState) (k : String) (d p : Bool) :
    ((get st k d p).1).tracker = st.tracker := by
  unfold get
  split
  · rw [quickDemotion_tracker]
  · split
    · split <;> rfl
    · rfl

theorem stepOp_tracker (cfg : S3Config) (st : CacheState) (op : Op) :
    (stepOp cfg st op).tracker = st.tracker := by
  cases op with
  | putOp k v => exact put_tracker cfg st k v
  | getOp k d p => exact get_tracker st k d p

theorem put_eq (cfg : S3Config) (st : CacheState) (k v : String) :
    put cfg st k v =
      if (putInsert st k v).mainCount * getAverageValueSize > cfg.mainSize then
        evictFromMain (putInsert st k v)
      else putInsert st k v := rfl

theorem evictFromMain_nil (st : CacheState) (h : st.main = []) :
    evictFromMain st = st := by
  obtain ⟨sm, mn, gh, sc, mc, gc, ck, co, tr⟩ := st
  simp only at h
  subst h
  rfl

theorem evictFromMain_main_isSome (st : CacheState) (k : String)
    (h : (kvGet k (evictFromMain st).main).isSome) : (kvGet k st.main).isSome := by
  cases hcons : st.main with
  | nil => rw [evictFromMain_nil st hcons] at h; exact hcons ▸ h
  | cons hd t =>
    obtain ⟨kh, vh⟩ := hd
    obtain ⟨h1, _, _, _⟩ := evictFromMain_cons st kh vh t hcons
    rw [h1, kvGet_isSome_kvDelete] at h
    exact hcons ▸ h.2

theorem put_main_isSome (cfg : S3Config) (st : CacheState) (k0 v0 k : String)
    (h : (kvGet k (put cfg st k0 v0).main).isSome) :
    (kvGet k (kvPut k0 v0 st.main)).isSome := by
  rw [put_eq] at h
  by_cases ht : (putInsert st k0 v0).mainCount * getAverageValueSize > cfg.mainSize
  · rw [if_pos ht] at h
    have h2 := evictFromMain_main_isSome _ k h
    rwa [putInsert_main] at h2
  · rw [if_neg ht, putInsert_main] at h
    exact h

theorem get_state_cases (st : CacheState) (k0 : String) (d p : Bool) :
    (get st k0 d p).1 = quickDemotion st k0 ∨
    (get st k0 d p).1 = st ∨
    ∃ v, kvGet k0 st.small = none ∧ kvGet k0 st.main = some v ∧
      ((get st k0 d p).1).small = (if p = true then kvPut k0 v st.small else st.small) ∧
      ((get st k0 d p).1).main = kvDelete k0 st.main ∧
      ((get st k0 d p).1).mainCount = st.mainCount - 1 ∧
      ((get st k0 d p).1).smallCount = st.smallCount + 1 := by
  unfold get
  split
  · left; rfl
  · rename_i hS
    split
    · rename_i v hM
      split
      · right; right; exact ⟨v, hS, hM, rfl, rfl, rfl, rfl⟩
      · right; left; rfl
    · right; left; rfl

/-! Claim theorems. -/

/-- Claim C1 is false as stated: running
`put a; put b; put a; get a; put a` from a fresh cache (one-item budgets)
ends with key `a` present in the small queue and in the main queue at the
same time, after a completed operation.  The final `put` hits a key
resident in the small queue, writes it to the main queue and overwrites the
small copy, leaving it in both. -/
theorem c1_dual_residency_cex : inBoth (runOps cfg0 opsOverlap) keyA := by
  constructor <;> decide

/-- Claim C2, evaluated at a failing input: with `a` in both the main and
the ghost queue, `get a` promotes unconditionally (the value is returned
and `a` moves to the small queue, leaving the main queue), but `a` is NOT
deleted from the ghost queue — the public `get` has no ghost delete, in
contradiction with the claim and with the algorithm description in the
source's own header comment. -/
theorem c2_ghost_not_cleared_eval :
    (kvGet keyA (runOps cfg0 opsGhostHit).main).isSome ∧
    (kvGet keyA (runOps cfg0 opsGhostHit).ghost).isSome ∧
    (get (runOps cfg0 opsGhostHit) keyA false true).2 = GetOutcome.found valA ∧
    (kvGet keyA (get (runOps cfg0 opsGhostHit) keyA false true).1.small).isSome ∧
    kvGet keyA (get (runOps cfg0 opsGhostHit) keyA false true).1.main = none ∧
    (kvGet keyA (get (runOps cfg0 opsGhostHit) keyA false true).1.ghost).isSome := by
  refine ⟨?_, ?_, ?_, ?_, ?_, ?_⟩ <;> decide

/-- Claim C3, evaluated at a failing input: after `put a`, two successive
`get a` are main-queue hits returning the value, yet `access_counts_[a]`
stays 0 — the public `get` path increments no access counter, so the guard
`AccessCount[k] > 1` of the probabilistic promotion can never become true
(here it is still false even with a favourable random draw). -/
theorem c3_count_never_incremented_eval :
    getA1.2 = GetOutcome.found valA ∧
    getA2.2 = GetOutcome.found valA ∧
    getA2.1.counts keyA = 0 ∧
    shouldPromoteToSmall getA2.1 keyA true = false := by
  refine ⟨?_, ?_, ?_, ?_⟩ <;> decide

/-- Claim C4 is false as stated: in the run `put a; put b; put a` the last
eviction step completes with the ghost queue holding two items against a
one-item budget, and the ghost queue's own oldest key `a` is still its
head — no eviction step ever drops a ghost entry. -/
theorem c4_no_ghost_drop_cex :
    (runOps cfg0 opsGhostHit).ghost.length * getAverageValueSize > cfg0.ghostSize ∧
    (runOps cfg0 opsGhostHit).ghost.head? = some (keyA, emptyVal) := by
  constructor <;> decide

/-- Claim C5 is false as stated: after the run `opsTwoPromotions` (two
ghost-hit promotions into the small queue), the small queue holds two items
against its one-item budget, and the ghost queue holds two items against
its one-item budget, measured as item count times the average value
size. -/
theorem c5_bounds_cex :
    (runOps cfg0 opsTwoPromotions).small.length * getAverageValueSize > cfg0.smallSize ∧
    (runOps cfg0 opsTwoPromotions).ghost.length * getAverageValueSize > cfg0.ghostSize := by
  constructor <;> decide

/-- Claim C7 is false as stated: construction with `small_ratio = 1`
(outside the open interval (0,1)) or with `ghost_ratio = 2` (outside
(0,1]) is not fatal — when the three backend opens succeed the constructor
returns a usable instance, because the source performs no ratio
validation. -/
theorem c7_no_validation_cex :
    (mkCache 8192 1 (1/10) true true true).isSome = true ∧
    (mkCache 8192 (1/2) 2 true true true).isSome = true := by
  constructor <;> decide

/-- Claim C8, evaluated at a failing input: key `a` is resident in the
small queue with `AccessCount[a] = 0 < MIN_ACCESS_COUNT`, yet the `get`
that hits it in the small queue leaves it in the small queue and not in
the main queue — `quickDemotion` only acts on keys present in
`access_tracker_`, and no live code path ever populates that tracker. -/
theorem c8_no_demotion_eval :
    (kvGet keyA (runOps cfg0 opsPromoted).small).isSome ∧
    (runOps cfg0 opsPromoted).counts keyA = 0 ∧
    (get (runOps cfg0 opsPromoted) keyA false true).2 = GetOutcome.found valA ∧
    (kvGet keyA (get (runOps cfg0 opsPromoted) keyA false true).1.small).isSome ∧
    kvGet keyA (get (runOps cfg0 opsPromoted) keyA false true).1.main = none := by
  refine ⟨?_, ?_, ?_, ?_, ?_⟩ <;> decide

/-- Claim C9, evaluated at a failing input: with `a` in the main and ghost
queues, a `get a` whose promotion insert into the small queue fails still
returns the found value with OK, but `a` does not remain in the main
queue: the public `get` ignores the insert status and deletes the key from
the main queue anyway, so the key is lost from both the small and the main
queue (the unused helper `promoteToSmall` implements the specified
keep-in-main behaviour). -/
theorem c9_key_lost_on_failed_insert_eval :
    (kvGet keyA (runOps cfg0 opsGhostHit).main).isSome ∧
    (get (runOps cfg0 opsGhostHit) keyA false false).2 = GetOutcome.found valA ∧
    kvGet keyA (get (runOps cfg0 opsGhostHit) keyA false false).1.main = none ∧
    kvGet keyA (get (runOps cfg0 opsGhostHit) keyA false false).1.small = none := by
  refine ⟨?_, ?_, ?_, ?_⟩ <;> decide

/-- Claim C1, amended: an operation can leave key `k` in both the small
and the main queue only when `k` was already in both before, or the
operation is a `put` on `k` at a moment when `k` is resident in the small
queue (the `put` writes the main queue and merely overwrites the small
copy).  In particular `get` operations never create a dual residency. -/
theorem c1_amended_overlap_only_from_put (cfg : S3Config) (st : CacheState) (op : Op)
    (k : String) (h : inBoth (stepOp cfg st op) k) :
    inBoth st k ∨ (opPutsKey op k ∧ (kvGet k st.small).isSome) := by
  cases op with
  | getOp k0 d p =>
    left
    have h1 : (kvGet k ((get st k0 d p).1).small).isSome := h.1
    have h2 : (kvGet k ((get st k0 d p).1).main).isSome := h.2
    rcases get_state_cases st k0 d p with hq | hs | ⟨v, _, _, hsm, hmn, _, _⟩
    · rcases quickDemotion_cases st k0 with ⟨qsm, qmn⟩ | ⟨w, qsm, qmn⟩
      · rw [hq, qsm] at h1
        rw [hq, qmn] at h2
        exact ⟨h1, h2⟩
      · rw [hq, qsm, kvGet_isSome_kvDelete] at h1
        rw [hq, qmn, kvGet_isSome_kvPut] at h2
        rcases h2 with he | h2
        · exact absurd he h1.1
        · exact ⟨h1.2, h2⟩
    · rw [hs] at h1
      rw [hs] at h2
      exact ⟨h1, h2⟩
    · rw [hmn, kvGet_isSome_kvDelete] at h2
      refine ⟨?_, h2.2⟩
      rw [hsm] at h1
      by_cases hp : p = true
      · rw [if_pos hp, kvGet_isSome_kvPut] at h1
        rcases h1 with he | h1
        · exact absurd he h2.1
        · exact h1
      · rw [if_neg hp] at h1
        exact h1
  | putOp k0 v0 =>
    have h1 : (kvGet k (put cfg st k0 v0).small).isSome := h.1
    have h2 : (kvGet k (put cfg st k0 v0).main).isSome := h.2
    rw [put_small, putInsert_small] at h1
    have hsm : (kvGet k st.small).isSome := by
      by_cases hc : (kvGet k0 st.small).isSome
      · rw [if_pos hc, kvGet_isSome_kvPut] at h1
        rcases h1 with he | h1
        · subst he; exact hc
        · exact h1
      · rw [if_neg hc] at h1
        exact h1
    by_cases hkk : k0 = k
    · right
      exact ⟨hkk, hsm⟩
    · left
      refine ⟨hsm, ?_⟩
      have h3 := put_main_isSome cfg st k0 v0 k h2
      rw [kvGet_isSome_kvPut] at h3
      rcases h3 with he | h3
      · exact absurd he hkk
      · exact h3

/-- Witness for the amended C1 theorem at a concrete input: the `put` of
key `a` on the state reached by `opsPromoted`, where `a` is resident in
the small queue, satisfies the conclusion. -/
theorem c1_amended_overlap_only_from_put_witness :
    inBoth (runOps cfg0 opsPromoted) keyA ∨
    (opPutsKey (Op.putOp keyA valW) keyA ∧
      (kvGet keyA (runOps cfg0 opsPromoted).small).isSome) :=
  c1_amended_overlap_only_from_put cfg0 (runOps cfg0 opsPromoted) (Op.putOp keyA valW)
    keyA (by constructor <;> decide)

/-- Claim C4, amended: when the insertion phase of `put` drives the main
item counter over budget, eviction performs exactly one step on the
intermediate state: it deletes the FIFO-oldest main entry `kold` (which
is then absent from the main queue), decrements the main counter, and
appends `kold` to the ghost queue with an empty value exactly when the
small queue does not contain `kold`; the ghost queue is never trimmed. -/
theorem c4_amended_single_eviction_step (cfg : S3Config) (st : CacheState)
    (k v kold vold : String) (t : KVList)
    (htrig : (putInsert st k v).mainCount * getAverageValueSize > cfg.mainSize)
    (hhead : (putInsert st k v).main = (kold, vold) :: t) :
    (put cfg st k v).main = kvDelete kold (putInsert st k v).main ∧
    kvGet kold (put cfg st k v).main = none ∧
    (put cfg st k v).mainCount = (putInsert st k v).mainCount - 1 ∧
    ((kvGet kold (putInsert st k v).small).isSome →
      (put cfg st k v).ghost = (putInsert st k v).ghost) ∧
    (kvGet kold (putInsert st k v).small = none →
      (put cfg st k v).ghost = kvPut kold emptyVal (putInsert st k v).ghost) := by
  have hput : put cfg st k v = evictFromMain (putInsert st k v) := by
    rw [put_eq, if_pos htrig]
  obtain ⟨h1, h2, h3, h4⟩ := evictFromMain_cons (putInsert st k v) kold vold t hhead
  rw [hput]
  exact ⟨h1, by rw [h1, kvGet_kvDelete, if_pos rfl], h2, h3, h4⟩

/-- Witness for the amended C4 theorem at a concrete input: the `put` of
key `b` after a `put` of key `a` with one-item budgets evicts `a` from
the main queue and appends it to the ghost queue. -/
theorem c4_amended_single_eviction_step_witness :
    kvGet keyA (put cfg0 stPutA keyB valB).main = none ∧
    (put cfg0 stPutA keyB valB).ghost =
      kvPut keyA emptyVal (putInsert stPutA keyB valB).ghost := by
  have h := c4_amended_single_eviction_step cfg0 stPutA keyB valB keyA valA
    [(keyB, valB)] (by decide) (by decide)
  exact ⟨h.2.1, h.2.2.2.2 (by decide)⟩

/-- Preservation of `CacheInv` by every public operation. -/
theorem stepOp_preserves_inv (cfg : S3Config) (st : CacheState) (op : Op)
    (h : CacheInv cfg st) : CacheInv cfg (stepOp cfg st op) := by
  obtain ⟨hT, h1, h2⟩ := h
  refine ⟨fun k => by rw [stepOp_tracker]; exact hT k, ?_⟩
  cases op with
  | getOp k0 d p =>
    simp only [stepOp]
    rcases get_state_cases st k0 d p with hq | hs | ⟨v, _, hM, _, hmn, hmc, _⟩
    · have hqe : quickDemotion st k0 = st := quickDemotion_of_tracker_none st k0 (hT k0)
      rw [hq, hqe]
      exact ⟨h1, h2⟩
    · rw [hs]
      exact ⟨h1, h2⟩
    · rw [hmn, hmc]
      have hlt := kvDelete_length_lt k0 st.main (by rw [hM]; rfl)
      have hle := kvDelete_length_le k0 st.main
      constructor
      · omega
      · have hmul : (kvDelete k0 st.main).length * getAverageValueSize ≤
            st.main.length * getAverageValueSize := Nat.mul_le_mul_right _ hle
        omega
  | putOp k0 v0 =>
    simp only [stepOp]
    rw [put_eq]
    by_cases ht : (putInsert st k0 v0).mainCount * getAverageValueSize > cfg.mainSize
    · rw [if_pos ht]
      have hm2 : (putInsert st k0 v0).main = kvPut k0 v0 st.main := putInsert_main st k0 v0
      have hmc2 : (putInsert st k0 v0).mainCount = st.mainCount + 1 :=
        putInsert_mainCount st k0 v0
      cases hcons : (putInsert st k0 v0).main with
      | nil => exact absurd (hm2.symm.trans hcons) (kvPut_ne_nil k0 v0 st.main)
      | cons hd t =>
        obtain ⟨kh, vh⟩ := hd
        obtain ⟨hemain, hecount, _, _⟩ := evictFromMain_cons (putInsert st k0 v0) kh vh t hcons
        rw [hemain, hecount, hmc2]
        have hlt := kvDelete_length_lt kh (putInsert st k0 v0).main (by rw [hcons]; simp [kvGet])
        have hlen2 : (putInsert st k0 v0).main.length ≤ st.main.length + 1 := by
          rw [hm2]; exact kvPut_length_le k0 v0 st.main
        constructor
        · omega
        · have hd1 : (kvDelete kh (putInsert st k0 v0).main).length ≤ st.main.length := by
            omega
          have hmul : (kvDelete kh (putInsert st k0 v0).main).length * getAverageValueSize ≤
              st.main.length * getAverageValueSize := Nat.mul_le_mul_right _ hd1
          omega
    · rw [if_neg ht]
      rw [putInsert_main, putInsert_mainCount]
      have hlen : (kvPut k0 v0 st.main).length ≤ st.main.length + 1 :=
        kvPut_length_le k0 v0 st.main
      have hbud : (st.mainCount + 1) * getAverageValueSize ≤ cfg.mainSize := by
        rw [putInsert_mainCount] at ht
        omega
      constructor
      · omega
      · have hmul : (kvPut k0 v0 st.main).length * getAverageValueSize ≤
            (st.mainCount + 1) * getAverageValueSize :=
          Nat.mul_le_mul_right _ (by omega)
        omega

/-- The invariant holds in every state reachable by public operations. -/
theorem runOps_inv (cfg : S3Config) (ops : List Op) : CacheInv cfg (runOps cfg ops) := by
  suffices h : ∀ st, CacheInv cfg st → CacheInv cfg (ops.foldl (stepOp cfg) st) from
    h initState ⟨fun k => rfl, Nat.le_refl 0, Nat.zero_le cfg.mainSize⟩
  induction ops with
  | nil => exact fun st h => h
  | cons op rest ih => exact fun st h => ih (stepOp cfg st op) (stepOp_preserves_inv cfg st op h)

/-- Claim C5, amended: of the three claimed bounds only the main-queue
bound holds.  After every sequence of completed public operations the main
queue satisfies `|M| * average_value_size ≤ main_size`; the small and the
ghost queue are not bounded by the engine (see the counterexample). -/
theorem c5_amended_main_within_budget (cfg : S3Config) (ops : List Op) :
    (runOps cfg ops).main.length * getAverageValueSize ≤ cfg.mainSize :=
  (runOps_inv cfg ops).2.2

/-- Claim C6, confirmed: a `get k` immediately after `put k v` returns
`(v, OK)` provided `k` survived the put's eviction step, i.e. `k` is still
present in the small or the main queue.  This covers the overwrite case:
the `put` updates both the main copy and (when present) the small copy, so
the most recently written value is returned even when `k` was resident in
the small queue at the time of the overwrite. -/
theorem c6_round_trip (cfg : S3Config) (st : CacheState) (k v : String) (draw spOk : Bool)
    (h : (kvGet k (put cfg st k v).small).isSome ∨ (kvGet k (put cfg st k v).main).isSome) :
    (get (put cfg st k v) k draw spOk).2 = GetOutcome.found v := by
  have hsmall : ∀ w, kvGet k (put cfg st k v).small = some w → w = v := by
    intro w hw
    rw [put_small, putInsert_small] at hw
    by_cases hk0 : (kvGet k st.small).isSome
    · rw [if_pos hk0, kvGet_kvPut, if_pos rfl] at hw
      exact (Option.some.inj hw).symm
    · rw [if_neg hk0, Option.isSome_iff_exists] at *
      exact absurd ⟨w, hw⟩ hk0
  have hmain : ∀ w, kvGet k (put cfg st k v).main = some w → w = v := by
    intro w hw
    rw [put_eq] at hw
    by_cases ht : (putInsert st k v).mainCount * getAverageValueSize > cfg.mainSize
    · rw [if_pos ht] at hw
      cases hcons : (putInsert st k v).main with
      | nil =>
        rw [putInsert_main] at hcons
        exact absurd hcons (kvPut_ne_nil k v st.main)
      | cons hd t =>
        obtain ⟨kh, vh⟩ := hd
        obtain ⟨hemain, _, _, _⟩ := evictFromMain_cons (putInsert st k v) kh vh t hcons
        rw [hemain, kvGet_kvDelete] at hw
        by_cases hkh : kh = k
        · rw [if_pos hkh] at hw
          exact absurd hw (by simp)
        · rw [if_neg hkh, putInsert_main, kvGet_kvPut, if_pos rfl] at hw
          exact (Option.some.inj hw).symm
    · rw [if_neg ht, putInsert_main, kvGet_kvPut, if_pos rfl] at hw
      exact (Option.some.inj hw).symm
  unfold get
  split
  · rename_i w hw
    rw [hsmall w hw]
  · rename_i hS
    split
    · rename_i w hw
      split
      · rw [hmain w hw]
      · rw [hmain w hw]
    · rename_i hM
      rcases h with h | h
      · rw [hS] at h; exact absurd h (by simp)
      · rw [hM] at h; exact absurd h (by simp)

/-- Witness for the C6 theorem at a concrete input: `put a va` on a fresh
cache followed by `get a` returns `va` with OK. -/
theorem c6_round_trip_witness :
    (get (put cfg0 initState keyA valA) keyA false true).2 = GetOutcome.found valA :=
  c6_round_trip cfg0 initState keyA valA false true (Or.inr (by decide))

/-- Claim C7, amended: the constructor performs no ratio validation.  For
every total size and every pair of ratios, construction succeeds exactly
when the three backend stores open successfully; only an open failure is
fatal. -/
theorem c7_amended_fatal_only_on_open_failure (total : Nat) (sf gf : ℚ)
    (a b c : Bool) : (mkCache total sf gf a b c).isSome = (a && b && c) := by
  cases a <;> cases b <;> cases c <;> simp [mkCache]

/-- Claim C10, confirmed: the reported hit ratio equals the exact fraction
`small_items / (small_items + main_items)` of the resident item counters
(with value 0 when both counters are zero, matching rational division by
zero), and a `get` that misses leaves the statistics unchanged — the
statistics are computed from resident item counts only, not from any
request, hit, or miss tally. -/
theorem c10_stats_fraction (st : CacheState) (sb mb gb : Nat) (k : String) (d p : Bool) :
    (getStats st sb mb gb).hitFraction =
      (st.smallCount : ℚ) / ((st.smallCount : ℚ) + (st.mainCount : ℚ)) ∧
    ((get st k d p).2 = GetOutcome.notFound →
      getStats (get st k d p).1 sb mb gb = getStats st sb mb gb) := by
  constructor
  · by_cases h : 0 < st.smallCount + st.mainCount
    · simp only [getStats, Statistics.hitFraction]
      rw [if_pos h]
      push_cast
      rfl
    · have h0 : st.smallCount = 0 := by omega
      have h1 : st.mainCount = 0 := by omega
      simp [getStats, Statistics.hitFraction, h, h0, h1]
  · intro hm
    rw [get_notFound_state st k d p hm]

/-- Witness for the C10 theorem at a concrete input: a missing `get` on a
fresh cache leaves the statistics unchanged. -/
theorem c10_stats_fraction_witness :
    getStats (get initState keyA false true).1 0 0 0 = getStats initState 0 0 0 :=
  (c10_stats_fraction initState 0 0 0 keyA false true).2 (by decide)

end S3FIFO
